import Mathlib

/-!
Shallow embedding of the `neural-network-from-scratch` repository
(`NetworkLayer`, `MultiLayerPerceptron`, `KNNClassifier` and the helpers of
`utils.js`), together with theorems settling the frozen claims about it.

Modelling conventions:
* JavaScript numbers are modelled as `ℚ` for all code whose claims only use
  field arithmetic, and as `ℝ` where `Math.sqrt` is involved
  (`euclideanDistance`).  The IEEE-754 `NaN`/`Infinity` corner exercised by
  one claim is modelled separately by the type `JNum`.
* JavaScript arrays are `List`s; out-of-range reads (`undefined` in JS) are
  modelled with `List.getD` defaults, which agrees with the source whenever
  the documented shape invariants hold.
* A `throw` is modelled by returning `none` from an `Option`-valued function.
* The activation function and the error function of the perceptron are
  configuration parameters in the source and are therefore kept abstract.
-/

/-- One fully-connected layer (`NetworkLayer.js`): weight matrix, bias
vector, stored activations and stored gradients. -/
structure NetworkLayer where
  numNeurons : ℕ
  numInputs : ℕ
  weights : List (List ℚ)
  biases : List ℚ
  activations : List ℚ
  gradients : List ℚ
deriving DecidableEq, Repr

instance : Inhabited NetworkLayer := ⟨⟨0, 0, [], [], [], []⟩⟩

/-- The weighted-sum loop of `NetworkLayer.activate`: for one neuron with
weight row `w`, accumulate `w[j] * inputs[j]` over `j < m`. -/
def weightedSum (w : List ℚ) (inputs : List ℚ) (m : ℕ) : ℚ :=
  (List.range m).foldl (fun s j => s + w.getD j 0 * inputs.getD j 0) 0

/-- `NetworkLayer.activate(inputs, activationFunction)`: throws on a
dimension mismatch (modelled as `none`), otherwise returns the outputs and
the layer with those outputs stored in `activations`. -/
def NetworkLayer.activate (l : NetworkLayer) (inputs : List ℚ) (f : ℚ → ℚ) :
    Option (List ℚ × NetworkLayer) :=
  if inputs.length ≠ l.numInputs then none
  else
    let outputs := (List.range l.numNeurons).map (fun i =>
      f (weightedSum (l.weights.getD i []) inputs l.numInputs + l.biases.getD i 0))
    some (outputs, { l with activations := outputs })

/-- A fold of additions starting at `0` is the `Finset.range` sum. -/
theorem foldl_add_eq_sum (g : ℕ → ℚ) : ∀ n : ℕ,
    (List.range n).foldl (fun s j => s + g j) 0 = ∑ j in Finset.range n, g j := by
  intro n
  induction n with
  | zero => simp
  | succ n ih => rw [List.range_succ, List.foldl_append, ih, Finset.sum_range_succ]; simp

/-- The weighted sum is the `Finset.range` sum of `w[j] * inputs[j]`. -/
theorem weightedSum_eq_sum (w inputs : List ℚ) (m : ℕ) :
    weightedSum w inputs m = ∑ j in Finset.range m, w.getD j 0 * inputs.getD j 0 :=
  foldl_add_eq_sum _ m

/-- C2: for every layer and every input vector whose length equals the
layer's configured input count, `activate` succeeds, returns an output
vector of length `numNeurons` with
`outputs[i] = f (Σ_j W[i][j] * inputs[j] + b[i])` for every neuron `i`, and
stores that vector as the layer's activation vector. -/
theorem activate_forward_spec (l : NetworkLayer) (inputs : List ℚ) (f : ℚ → ℚ)
    (h : inputs.length = l.numInputs) :
    ∃ out : List ℚ,
      l.activate inputs f = some (out, { l with activations := out }) ∧
      out.length = l.numNeurons ∧
      ∀ i < l.numNeurons, out.get? i =
        some (f ((∑ j in Finset.range l.numInputs,
          (l.weights.getD i []).getD j 0 * inputs.getD j 0) + l.biases.getD i 0)) := by
  refine ⟨(List.range l.numNeurons).map (fun i =>
      f (weightedSum (l.weights.getD i []) inputs l.numInputs + l.biases.getD i 0)), ?_, ?_, ?_⟩
  · rw [NetworkLayer.activate, if_neg (by omega)]
  · simp
  · intro i hi
    rw [List.get?_map, List.get?_range hi]
    simp [weightedSum_eq_sum]

/-- Witness for C2 at a concrete layer and input. -/
theorem activate_forward_spec_witness :
    ∃ out : List ℚ,
      NetworkLayer.activate ⟨2, 2, [[1, 2], [3, 4]], [5, 6], [], []⟩ [1, 1] (fun x => x) =
        some (out, { (⟨2, 2, [[1, 2], [3, 4]], [5, 6], [], []⟩ : NetworkLayer) with
          activations := out }) ∧
      out.length = 2 ∧
      ∀ i < 2, out.get? i =
        some ((fun x => x) ((∑ j in Finset.range 2,
          (([[1, 2], [3, 4]] : List (List ℚ)).getD i []).getD j 0 *
            ([1, 1] : List ℚ).getD j 0) + ([5, 6] : List ℚ).getD i 0)) :=
  activate_forward_spec ⟨2, 2, [[1, 2], [3, 4]], [5, 6], [], []⟩ [1, 1] (fun x => x) (by decide)

/-- Output-layer gradients of `#backpropagate`: for each neuron `j`,
`(targets[j] - predictions[j]) * a[j] * (1 - a[j])` — the sigmoid-derivative
form, used whatever activation function the network was configured with. -/
def outputGradients (targets predictions : List ℚ) (cur : NetworkLayer) : List ℚ :=
  (List.range cur.numNeurons).map (fun j =>
    let activation := cur.activations.getD j 0
    let derivative := activation * (1 - activation)
    (targets.getD j 0 - predictions.getD j 0) * derivative)

/-- Hidden-layer gradients of `#backpropagate`: for each neuron `j`,
`(Σ_k nextLayer.W[k][j] * nextLayer.grad[k]) * a[j] * (1 - a[j])`. -/
def hiddenGradients (next cur : NetworkLayer) : List ℚ :=
  (List.range cur.numNeurons).map (fun j =>
    let activation := cur.activations.getD j 0
    let derivative := activation * (1 - activation)
    ((List.range next.numNeurons).foldl
      (fun g k => g + (next.weights.getD k []).getD j 0 * next.gradients.getD k 0) 0)
      * derivative)

/-- The inner weight-update loop of `#backpropagate` on one weight row:
`row[k] += learningRate * grad_j * prevActivations[k]` for `k` below the
previous layer's neuron count. -/
def updateRow (lr gj : ℚ) (prevActs : List ℚ) (p : ℕ) (row : List ℚ) : List ℚ :=
  (List.range p).foldl (fun r k => r.set k (r.getD k 0 + lr * gj * prevActs.getD k 0)) row

/-- The outer weight-update loop of `#backpropagate`: row `j` of the weight
matrix gets `updateRow` with gradient `grads[j]`, for `j` below the current
layer's neuron count. -/
def updateWeights (lr : ℚ) (grads prevActs : List ℚ) (n p : ℕ)
    (w : List (List ℚ)) : List (List ℚ) :=
  (List.range n).foldl (fun w j => w.set j (updateRow lr (grads.getD j 0) prevActs p (w.getD j []))) w

/-- The bias-update loop of `#backpropagate`:
`b[j] += learningRate * grad_j` for `j` below the neuron count. -/
def updateBiases (lr : ℚ) (grads : List ℚ) (n : ℕ) (b : List ℚ) : List ℚ :=
  (List.range n).foldl (fun b j => b.set j (b.getD j 0 + lr * grads.getD j 0)) b

/-- One iteration of the backward loop of `#backpropagate` at layer index
`i` (`L` is the number of layers): compute the gradients of layer `i`
(output form at `i = L - 1`, hidden form at `0 < i < L - 1`, none at the
input layer), then — except for the input layer — update the layer's
weights and biases and store the gradients. -/
def backpropStep (lr : ℚ) (targets predictions : List ℚ) (L i : ℕ)
    (ls : List NetworkLayer) : List NetworkLayer :=
  let cur := ls.getD i default
  let next := ls.getD (i + 1) default
  let grads :=
    if i = L - 1 then outputGradients targets predictions cur
    else if 0 < i then hiddenGradients next cur
    else []
  if 0 < i then
    let prev := ls.getD (i - 1) default
    ls.set i { cur with
      weights := updateWeights lr grads prev.activations cur.numNeurons prev.numNeurons cur.weights,
      biases := updateBiases lr grads cur.numNeurons cur.biases,
      gradients := grads }
  else ls

/-- The backward sweep of `#backpropagate`: run `backpropStep` at indices
`i, i - 1, …, 0`. -/
def backpropSweep (lr : ℚ) (targets predictions : List ℚ) (L : ℕ) :
    ℕ → List NetworkLayer → List NetworkLayer
  | 0, ls => backpropStep lr targets predictions L 0 ls
  | i + 1, ls => backpropSweep lr targets predictions L i
      (backpropStep lr targets predictions L (i + 1) ls)

/-- `MultiLayerPerceptron.#backpropagate(targets, predictions)` acting on
the layer list: sweep from the last layer down to the first. -/
def backpropagate (lr : ℚ) (targets predictions : List ℚ)
    (ls : List NetworkLayer) : List NetworkLayer :=
  match ls.length with
  | 0 => ls
  | n + 1 => backpropSweep lr targets predictions (n + 1) n ls

/-- A loop that walks indices `0, …, n - 1` replacing position `i` by
`f i` of its current value never changes the length of the list. -/
theorem setFold_length {α : Type} (f : ℕ → α → α) (d : α) (n : ℕ) (l : List α) :
    ((List.range n).foldl (fun acc i => acc.set i (f i (acc.getD i d))) l).length = l.length := by
  induction (List.range n) generalizing l with
  | nil => rfl
  | cons a t iht =>
    rw [List.foldl_cons, iht (l.set a (f a (l.getD a d))), List.length_set]

/-- Pointwise description of a loop that walks indices `0, …, n - 1` and
replaces position `i` by `f i` of its current value: position `j` ends up
as `f j` of its original value when `j` is both below `n` and in range, and
is untouched otherwise.  Every position is written at most once, so the
value read at position `j` is still the original one. -/
theorem setFold_get? {α : Type} (f : ℕ → α → α) (d : α) (n : ℕ) (l : List α) (j : ℕ) :
    ((List.range n).foldl (fun acc i => acc.set i (f i (acc.getD i d))) l).get? j =
      if j < n ∧ j < l.length then some (f j (l.getD j d)) else l.get? j := by
  induction n generalizing j with
  | zero => simp
  | succ n ih =>
    rw [List.range_succ, List.foldl_append]
    simp only [List.foldl_cons, List.foldl_nil]
    have hgetn : ((List.range n).foldl (fun acc i => acc.set i (f i (acc.getD i d))) l).getD n d
        = l.getD n d := by
      rw [List.getD_eq_get?, List.getD_eq_get?, ih n]
      simp
    rw [hgetn]
    rcases Nat.lt_trichotomy j n with hjn | rfl | hjn
    · rw [List.get?_set_ne _ _ (by omega), ih j]
      have h1 : (j < n ∧ j < l.length) ↔ (j < n + 1 ∧ j < l.length) := by omega
      by_cases hc : j < n ∧ j < l.length
      · rw [if_pos hc, if_pos (h1.mp hc)]
      · rw [if_neg hc, if_neg (fun hh => hc (h1.mpr hh))]
    · by_cases hl : j < l.length
      · rw [List.get?_set_eq_of_lt _ (by rw [setFold_length]; omega), if_pos ⟨by omega, hl⟩]
      · rw [List.set_eq_of_length_le (by rw [setFold_length]; omega), ih j,
          if_neg (by omega), if_neg (by omega)]
    · rw [List.get?_set_ne _ _ (by omega), ih j, if_neg (by omega), if_neg (by omega)]

/-- Pointwise value of the weight-row update:
`row[k] + learningRate * grad_j * prevActivations[k]` for in-range `k`. -/
theorem updateRow_get? (lr gj : ℚ) (prevActs : List ℚ) (p : ℕ) (row : List ℚ) (k : ℕ) :
    (updateRow lr gj prevActs p row).get? k =
      if k < p ∧ k < row.length then some (row.getD k 0 + lr * gj * prevActs.getD k 0)
      else row.get? k :=
  setFold_get? (fun k x => x + lr * gj * prevActs.getD k 0) 0 p row k

/-- Pointwise value of the weight-matrix update: row `j` becomes
`updateRow` of the original row `j`. -/
theorem updateWeights_get? (lr : ℚ) (grads prevActs : List ℚ) (n p : ℕ)
    (w : List (List ℚ)) (j : ℕ) :
    (updateWeights lr grads prevActs n p w).get? j =
      if j < n ∧ j < w.length then some (updateRow lr (grads.getD j 0) prevActs p (w.getD j []))
      else w.get? j :=
  setFold_get? (fun j row => updateRow lr (grads.getD j 0) prevActs p row) [] n w j

/-- Pointwise value of the bias update: `b[j] + learningRate * grad_j` for
in-range `j`. -/
theorem updateBiases_get? (lr : ℚ) (grads : List ℚ) (n : ℕ) (b : List ℚ) (j : ℕ) :
    (updateBiases lr grads n b).get? j =
      if j < n ∧ j < b.length then some (b.getD j 0 + lr * grads.getD j 0)
      else b.get? j :=
  setFold_get? (fun j x => x + lr * grads.getD j 0) 0 n b j

/-- A backward-loop iteration at the input layer leaves the layers
unchanged: no gradient is stored and no update is applied there. -/
theorem backpropStep_zero (lr : ℚ) (targets predictions : List ℚ) (L : ℕ)
    (ls : List NetworkLayer) : backpropStep lr targets predictions L 0 ls = ls := rfl

/-- A backward-loop iteration at index `i` only writes layer `i`. -/
theorem backpropStep_get?_ne (lr : ℚ) (targets predictions : List ℚ) (L i j : ℕ)
    (ls : List NetworkLayer) (h : i ≠ j) :
    (backpropStep lr targets predictions L i ls).get? j = ls.get? j := by
  rw [backpropStep]
  by_cases hi : 0 < i
  · rw [if_pos hi, List.get?_set_ne _ _ h]
  · rw [if_neg hi]

/-- A backward-loop iteration preserves the number of layers. -/
theorem backpropStep_length (lr : ℚ) (targets predictions : List ℚ) (L i : ℕ)
    (ls : List NetworkLayer) :
    (backpropStep lr targets predictions L i ls).length = ls.length := by
  rw [backpropStep]
  by_cases hi : 0 < i
  · rw [if_pos hi, List.length_set]
  · rw [if_neg hi]

/-- The sweep from index `i` downward never touches layers above `i`. -/
theorem backpropSweep_get?_gt (lr : ℚ) (targets predictions : List ℚ) (L : ℕ) :
    ∀ (i : ℕ) (ls : List NetworkLayer) (j : ℕ), i < j →
    (backpropSweep lr targets predictions L i ls).get? j = ls.get? j := by
  intro i
  induction i with
  | zero =>
    intro ls j hj
    rw [backpropSweep, backpropStep_get?_ne _ _ _ _ _ _ _ (by omega)]
  | succ i ih =>
    intro ls j hj
    rw [backpropSweep, ih _ j (by omega), backpropStep_get?_ne _ _ _ _ _ _ _ (by omega)]

/-- The sweep preserves the number of layers. -/
theorem backpropSweep_length (lr : ℚ) (targets predictions : List ℚ) (L : ℕ) :
    ∀ (i : ℕ) (ls : List NetworkLayer),
    (backpropSweep lr targets predictions L i ls).length = ls.length := by
  intro i
  induction i with
  | zero => intro ls; rw [backpropSweep, backpropStep_length]
  | succ i ih => intro ls; rw [backpropSweep, ih, backpropStep_length]

/-- Peeling the sweep at an intermediate index `j`: the sweep from `i ≥ j`
equals the sweep from `j` on some intermediate list `m` in which every layer
up to `j` still has its original value and layer `j + 1` already has its
final value. -/
theorem backpropSweep_peel (lr : ℚ) (targets predictions : List ℚ) (L : ℕ) :
    ∀ (i : ℕ) (ls : List NetworkLayer) (j : ℕ), j ≤ i →
    ∃ m : List NetworkLayer,
      backpropSweep lr targets predictions L i ls = backpropSweep lr targets predictions L j m ∧
      (∀ j' ≤ j, m.get? j' = ls.get? j') ∧
      m.get? (j + 1) = (backpropSweep lr targets predictions L i ls).get? (j + 1) ∧
      m.length = ls.length := by
  intro i
  induction i with
  | zero =>
    intro ls j hj
    have hj0 : j = 0 := Nat.le_zero.mp hj
    subst hj0
    exact ⟨ls, rfl, fun j' _ => rfl,
      (backpropSweep_get?_gt _ _ _ _ _ _ _ (by omega)).symm, rfl⟩
  | succ i ih =>
    intro ls j hj
    rcases Nat.eq_or_lt_of_le hj with rfl | hlt
    · exact ⟨ls, rfl, fun j' _ => rfl,
        (backpropSweep_get?_gt _ _ _ _ _ _ _ (by omega)).symm, rfl⟩
    · obtain ⟨m, hm1, hm2, hm3, hm4⟩ :=
        ih (backpropStep lr targets predictions L (i + 1) ls) j (by omega)
      refine ⟨m, ?_, ?_, ?_, ?_⟩
      · rw [backpropSweep, hm1]
      · intro j' hj'
        rw [hm2 j' hj', backpropStep_get?_ne _ _ _ _ _ _ _ (by omega)]
      · rw [hm3, backpropSweep]
      · rw [hm4, backpropStep_length]

/-- The sweep's final value at index `j ≤ i` is the value written by the
step at `j`, executed on an intermediate list whose layers up to `j` are
original and whose layer `j + 1` is final. -/
theorem backpropSweep_extract (lr : ℚ) (targets predictions : List ℚ) (L i : ℕ)
    (ls : List NetworkLayer) (j : ℕ) (hj : j ≤ i) :
    ∃ m : List NetworkLayer,
      (∀ j' ≤ j, m.get? j' = ls.get? j') ∧
      m.get? (j + 1) = (backpropSweep lr targets predictions L i ls).get? (j + 1) ∧
      m.length = ls.length ∧
      (backpropSweep lr targets predictions L i ls).get? j =
        (backpropStep lr targets predictions L j m).get? j := by
  obtain ⟨m, hm1, hm2, hm3, hm4⟩ := backpropSweep_peel lr targets predictions L i ls j hj
  refine ⟨m, hm2, hm3, hm4, ?_⟩
  rw [hm1]
  cases j with
  | zero => rw [backpropSweep]
  | succ j => rw [backpropSweep, backpropSweep_get?_gt _ _ _ _ _ _ _ (by omega)]

/-- Value written by the backward-loop iteration at a non-input layer `i`:
gradients in the output form at `i = L - 1` and in the hidden form
otherwise, weights and biases updated with those gradients and the previous
layer's activations. -/
theorem backpropStep_get?_pos (lr : ℚ) (targets predictions : List ℚ) (L i : ℕ)
    (ls : List NetworkLayer) (hi : 0 < i) (hlen : i < ls.length) :
    (backpropStep lr targets predictions L i ls).get? i = some
      { ls.getD i default with
        weights := updateWeights lr
          (if i = L - 1 then outputGradients targets predictions (ls.getD i default)
           else hiddenGradients (ls.getD (i + 1) default) (ls.getD i default))
          (ls.getD (i - 1) default).activations (ls.getD i default).numNeurons
          (ls.getD (i - 1) default).numNeurons (ls.getD i default).weights,
        biases := updateBiases lr
          (if i = L - 1 then outputGradients targets predictions (ls.getD i default)
           else hiddenGradients (ls.getD (i + 1) default) (ls.getD i default))
          (ls.getD i default).numNeurons (ls.getD i default).biases,
        gradients :=
          if i = L - 1 then outputGradients targets predictions (ls.getD i default)
          else hiddenGradients (ls.getD (i + 1) default) (ls.getD i default) } := by
  rw [backpropStep]
  by_cases hL : i = L - 1
  · simp only [if_pos hL, if_pos hi, List.get?_set_eq_of_lt _ hlen]
  · simp only [if_neg hL, if_pos hi, List.get?_set_eq_of_lt _ hlen]

/-- The result of `#backpropagate` at a non-input layer index `i`: the
layer keeps its activations and sizes, its stored gradients are the output
form at the last layer and the hidden form (computed from the *final* state
of layer `i + 1`, which the backward sweep updated first) elsewhere, and its
weights and biases are updated with those gradients and the previous
layer's original activations. -/
theorem backpropagate_get?_pos (lr : ℚ) (targets predictions : List ℚ)
    (ls : List NetworkLayer) (i : ℕ) (hi : 0 < i) (hlen : i < ls.length) :
    (backpropagate lr targets predictions ls).get? i = some
      { ls.getD i default with
        weights := updateWeights lr
          (if i = ls.length - 1 then outputGradients targets predictions (ls.getD i default)
           else hiddenGradients ((backpropagate lr targets predictions ls).getD (i + 1) default)
             (ls.getD i default))
          (ls.getD (i - 1) default).activations (ls.getD i default).numNeurons
          (ls.getD (i - 1) default).numNeurons (ls.getD i default).weights,
        biases := updateBiases lr
          (if i = ls.length - 1 then outputGradients targets predictions (ls.getD i default)
           else hiddenGradients ((backpropagate lr targets predictions ls).getD (i + 1) default)
             (ls.getD i default))
          (ls.getD i default).numNeurons (ls.getD i default).biases,
        gradients :=
          if i = ls.length - 1 then outputGradients targets predictions (ls.getD i default)
          else hiddenGradients ((backpropagate lr targets predictions ls).getD (i + 1) default)
            (ls.getD i default) } := by
  rcases hlength : ls.length with _ | n
  · omega
  have hback : backpropagate lr targets predictions ls =
      backpropSweep lr targets predictions (n + 1) n ls := by
    rw [backpropagate, hlength]
  obtain ⟨m, hm1, hm2, hm3, hm4⟩ :=
    backpropSweep_extract lr targets predictions (n + 1) n ls i (by omega)
  have hmi : m.getD i default = ls.getD i default := by
    rw [List.getD_eq_get?, List.getD_eq_get?, hm1 i (le_refl i)]
  have hmim : m.getD (i - 1) default = ls.getD (i - 1) default := by
    rw [List.getD_eq_get?, List.getD_eq_get?, hm1 (i - 1) (by omega)]
  have hmip : m.getD (i + 1) default =
      (backpropSweep lr targets predictions (n + 1) n ls).getD (i + 1) default := by
    rw [List.getD_eq_get?, List.getD_eq_get?, hm2]
  rw [hback, hm4, backpropStep_get?_pos lr targets predictions (n + 1) i m hi (by omega),
    hmi, hmim, hmip]

/-- Elementwise value of the output-layer gradient vector. -/
theorem outputGradients_get? (targets predictions : List ℚ) (cur : NetworkLayer)
    (j : ℕ) (hj : j < cur.numNeurons) :
    (outputGradients targets predictions cur).get? j =
      some ((targets.getD j 0 - predictions.getD j 0) *
        (cur.activations.getD j 0 * (1 - cur.activations.getD j 0))) := by
  rw [outputGradients, List.get?_map, List.get?_range hj, Option.map_some']

/-- Elementwise value of the hidden-layer gradient vector, with the inner
accumulation written as a `Finset.range` sum. -/
theorem hiddenGradients_get? (next cur : NetworkLayer) (j : ℕ) (hj : j < cur.numNeurons) :
    (hiddenGradients next cur).get? j =
      some ((∑ k in Finset.range next.numNeurons,
          (next.weights.getD k []).getD j 0 * next.gradients.getD k 0) *
        (cur.activations.getD j 0 * (1 - cur.activations.getD j 0))) := by
  rw [hiddenGradients, List.get?_map, List.get?_range hj, Option.map_some',
    foldl_add_eq_sum (fun k => (next.weights.getD k []).getD j 0 * next.gradients.getD k 0)]

/-- C1: in `#backpropagate`, gradients follow the spec's equations.  For
every output-layer neuron `j`,
`grad[j] = (targets[j] - predictions[j]) * a[j] * (1 - a[j])` — the
sigmoid-derivative form, applied unconditionally: `#backpropagate` never
consults the configured activation function (it is not even a parameter of
this computation).  For every neuron `j` of a hidden layer
(`0 < i < L - 1`),
`grad[j] = (Σ_k nextLayer.W[k][j] * nextLayer.grad[k]) * a[j] * (1 - a[j])`,
where `nextLayer` is layer `i + 1` in the state the backward sweep has
already produced and `a` is the layer's stored activation vector from the
preceding forward pass. -/
theorem backpropagate_gradient_formulas (lr : ℚ) (targets predictions : List ℚ)
    (ls : List NetworkLayer) :
    (2 ≤ ls.length → ∀ j < (ls.getD (ls.length - 1) default).numNeurons,
      ((backpropagate lr targets predictions ls).getD (ls.length - 1) default).gradients.get? j =
        some ((targets.getD j 0 - predictions.getD j 0) *
          ((ls.getD (ls.length - 1) default).activations.getD j 0 *
            (1 - (ls.getD (ls.length - 1) default).activations.getD j 0)))) ∧
    (∀ i, 0 < i → i < ls.length - 1 → ∀ j < (ls.getD i default).numNeurons,
      ((backpropagate lr targets predictions ls).getD i default).gradients.get? j =
        some ((∑ k in Finset.range
            ((backpropagate lr targets predictions ls).getD (i + 1) default).numNeurons,
            (((backpropagate lr targets predictions ls).getD (i + 1) default).weights.getD k
                []).getD j 0 *
              ((backpropagate lr targets predictions ls).getD (i + 1) default).gradients.getD k 0) *
          ((ls.getD i default).activations.getD j 0 *
            (1 - (ls.getD i default).activations.getD j 0)))) := by
  constructor
  · intro hL j hj
    have h := backpropagate_get?_pos lr targets predictions ls (ls.length - 1)
      (by omega) (by omega)
    rw [List.getD_eq_get?, h, Option.getD_some, if_pos rfl]
    exact outputGradients_get? targets predictions (ls.getD (ls.length - 1) default) j hj
  · intro i hi hil j hj
    have h := backpropagate_get?_pos lr targets predictions ls i hi (by omega)
    rw [List.getD_eq_get?, h, Option.getD_some, if_neg (by omega)]
    exact hiddenGradients_get?
      ((backpropagate lr targets predictions ls).getD (i + 1) default)
      (ls.getD i default) j hj

/-- A concrete three-layer network state (after some forward pass), used to
instantiate the backpropagation theorems. -/
def demoLayers : List NetworkLayer :=
  [⟨1, 1, [[1]], [0], [1/2], []⟩,
   ⟨1, 1, [[1/2]], [0], [1/2], []⟩,
   ⟨1, 1, [[1/3]], [0], [1/4], []⟩]

/-- Witness for C1 on the concrete three-layer network: output layer
(index 2) and hidden layer (index 1). -/
theorem backpropagate_gradient_formulas_witness :
    ((backpropagate 1 [1] [1/4] demoLayers).getD 2 default).gradients.get? 0 =
      some ((([1] : List ℚ).getD 0 0 - ([1/4] : List ℚ).getD 0 0) *
        ((demoLayers.getD 2 default).activations.getD 0 0 *
          (1 - (demoLayers.getD 2 default).activations.getD 0 0))) ∧
    ((backpropagate 1 [1] [1/4] demoLayers).getD 1 default).gradients.get? 0 =
      some ((∑ k in Finset.range
          ((backpropagate 1 [1] [1/4] demoLayers).getD 2 default).numNeurons,
          (((backpropagate 1 [1] [1/4] demoLayers).getD 2 default).weights.getD k []).getD 0 0 *
            ((backpropagate 1 [1] [1/4] demoLayers).getD 2 default).gradients.getD k 0) *
        ((demoLayers.getD 1 default).activations.getD 0 0 *
          (1 - (demoLayers.getD 1 default).activations.getD 0 0))) :=
  ⟨(backpropagate_gradient_formulas 1 [1] [1/4] demoLayers).1 (by decide) 0 (by decide),
   (backpropagate_gradient_formulas 1 [1] [1/4] demoLayers).2 1 (by decide) (by decide) 0
     (by decide)⟩

/-- C3: a single `#backpropagate` call updates the weights and biases of
every layer except the input layer:
`W[j][k] += learningRate * grad[j] * prevLayerActivation[k]` and
`b[j] += learningRate * grad[j]`, where `grad` is the gradient vector the
call just stored in that layer and the previous layer's activations are its
stored forward-pass activations; layer 0 (the input layer) is left entirely
unchanged — weights, biases and gradient vector included. -/
theorem backpropagate_update_frame (lr : ℚ) (targets predictions : List ℚ)
    (ls : List NetworkLayer) :
    (∀ i, 0 < i → i < ls.length →
      ∀ j, j < (ls.getD i default).numNeurons → j < (ls.getD i default).weights.length →
      ∀ k, k < (ls.getD (i - 1) default).numNeurons →
        k < ((ls.getD i default).weights.getD j []).length →
      (((backpropagate lr targets predictions ls).getD i default).weights.getD j []).get? k =
        some (((ls.getD i default).weights.getD j []).getD k 0 +
          lr * ((backpropagate lr targets predictions ls).getD i default).gradients.getD j 0 *
            (ls.getD (i - 1) default).activations.getD k 0)) ∧
    (∀ i, 0 < i → i < ls.length →
      ∀ j, j < (ls.getD i default).numNeurons → j < (ls.getD i default).biases.length →
      ((backpropagate lr targets predictions ls).getD i default).biases.get? j =
        some ((ls.getD i default).biases.getD j 0 +
          lr * ((backpropagate lr targets predictions ls).getD i default).gradients.getD j 0)) ∧
    (backpropagate lr targets predictions ls).get? 0 = ls.get? 0 := by
  refine ⟨?_, ?_, ?_⟩
  · intro i hi hil j hjn hjw k hkp hkr
    have h := backpropagate_get?_pos lr targets predictions ls i hi hil
    rw [List.getD_eq_get? ((backpropagate lr targets predictions ls)), h, Option.getD_some]
    rw [List.getD_eq_get? _ j, updateWeights_get?, if_pos ⟨hjn, hjw⟩, Option.getD_some,
      updateRow_get?, if_pos ⟨hkp, hkr⟩]
  · intro i hi hil j hjn hjb
    have h := backpropagate_get?_pos lr targets predictions ls i hi hil
    rw [List.getD_eq_get? ((backpropagate lr targets predictions ls)), h, Option.getD_some]
    rw [updateBiases_get?, if_pos ⟨hjn, hjb⟩]
  · rcases hlength : ls.length with _ | n
    · rw [backpropagate, hlength]
    · have hb : backpropagate lr targets predictions ls =
          backpropSweep lr targets predictions (n + 1) n ls := by
        rw [backpropagate, hlength]
      rw [hb]
      cases n with
      | zero => rw [backpropSweep, backpropStep_zero]
      | succ n =>
        obtain ⟨m, hm1, hm2, hm3, hm4⟩ :=
          backpropSweep_peel lr targets predictions (n + 1 + 1) (n + 1) ls 0 (by omega)
        rw [hm1, backpropSweep, backpropStep_zero]
        exact hm2 0 (le_refl 0)

/-- Witness for C3 on the concrete three-layer network: weight and bias
update of layer 1, and the untouched input layer. -/
theorem backpropagate_update_frame_witness :
    (((backpropagate 1 [1] [1/4] demoLayers).getD 1 default).weights.getD 0 []).get? 0 =
      some (((demoLayers.getD 1 default).weights.getD 0 []).getD 0 0 +
        1 * ((backpropagate 1 [1] [1/4] demoLayers).getD 1 default).gradients.getD 0 0 *
          (demoLayers.getD 0 default).activations.getD 0 0) ∧
    ((backpropagate 1 [1] [1/4] demoLayers).getD 1 default).biases.get? 0 =
      some ((demoLayers.getD 1 default).biases.getD 0 0 +
        1 * ((backpropagate 1 [1] [1/4] demoLayers).getD 1 default).gradients.getD 0 0) ∧
    (backpropagate 1 [1] [1/4] demoLayers).get? 0 = demoLayers.get? 0 :=
  ⟨(backpropagate_update_frame 1 [1] [1/4] demoLayers).1 1 (by decide) (by decide) 0
      (by decide) (by decide) 0 (by decide) (by decide),
   (backpropagate_update_frame 1 [1] [1/4] demoLayers).2.1 1 (by decide) (by decide) 0
      (by decide) (by decide),
   (backpropagate_update_frame 1 [1] [1/4] demoLayers).2.2⟩

/-- The `MultiLayerPerceptron` state: its layers plus the configured
activation function, error function and learning rate (the constructor's
defaults `reLU`, `mse`, `0.01` are particular instantiations). -/
structure MultiLayerPerceptron where
  layers : List NetworkLayer
  activationFunction : ℚ → ℚ
  errorFunction : List ℚ → List ℚ → ℚ
  learningRate : ℚ

/-- One training sample of `train`: `{inputs, targets}`. -/
structure Sample where
  inputs : List ℚ
  targets : List ℚ
deriving DecidableEq

/-- The forward chain of `#predict`: feed the outputs of each layer to the
next, threading the per-layer activation storage; a dimension mismatch in
any layer aborts the whole pass. -/
def predictAux (f : ℚ → ℚ) : List NetworkLayer → List ℚ →
    Option (List ℚ × List NetworkLayer)
  | [], outputs => some (outputs, [])
  | l :: rest, inputs =>
    match l.activate inputs f with
    | none => none
    | some (out, l') =>
      match predictAux f rest out with
      | none => none
      | some (final, rest') => some (final, l' :: rest')

/-- `MultiLayerPerceptron.#predict(inputs)`. -/
def MultiLayerPerceptron.predict (m : MultiLayerPerceptron) (inputs : List ℚ) :
    Option (List ℚ × MultiLayerPerceptron) :=
  match predictAux m.activationFunction m.layers inputs with
  | none => none
  | some (outputs, layers') => some (outputs, { m with layers := layers' })

/-- The per-sample body of `train`: predict, compute the error with the
configured error function, backpropagate.  Returns the updated network and
the sample's error. -/
def runSample (m : MultiLayerPerceptron) (s : Sample) :
    Option (MultiLayerPerceptron × ℚ) :=
  match m.predict s.inputs with
  | none => none
  | some (predictions, m') =>
    let error := m.errorFunction predictions s.targets
    some ({ m' with
      layers := backpropagate m.learningRate s.targets predictions m'.layers }, error)

/-- The per-epoch loop of `train`: iterate the samples in order,
accumulating `totalError`. -/
def epochLoop : MultiLayerPerceptron → List Sample → ℚ → Option (MultiLayerPerceptron × ℚ)
  | m, [], total => some (m, total)
  | m, s :: rest, total =>
    match runSample m s with
    | none => none
    | some (m', e) => epochLoop m' rest (total + e)

/-- The epoch loop of `train`: `iteration` counts from 1; after each epoch
the average error is passed to the callback, whose truthy return value
breaks the loop. -/
def trainAux (samples : List Sample) (cb : ℕ → ℚ → Bool) :
    ℕ → ℕ → MultiLayerPerceptron → Option MultiLayerPerceptron
  | _, 0, m => some m
  | iteration, remaining + 1, m =>
    match epochLoop m samples 0 with
    | none => none
    | some (m', totalError) =>
      let averageError := totalError / (samples.length : ℚ)
      if cb iteration averageError then some m'
      else trainAux samples cb (iteration + 1) remaining m'

/-- `MultiLayerPerceptron.train(trainingData, epochs, callback)`: an
omitted callback (`none`) behaves as `() => {}`, whose `undefined` return
value is falsy. -/
def MultiLayerPerceptron.train (m : MultiLayerPerceptron) (samples : List Sample)
    (epochs : ℕ) (callback : Option (ℕ → ℚ → Bool)) : Option MultiLayerPerceptron :=
  trainAux samples (callback.getD (fun _ _ => false)) 1 epochs m

/-- Transcribed from the spec's description of `train`: run the samples in
original order collecting the per-sample losses of
predict → computeLoss → backpropagate. -/
def specEpoch : MultiLayerPerceptron → List Sample → Option (MultiLayerPerceptron × List ℚ)
  | m, [] => some (m, [])
  | m, s :: rest =>
    match runSample m s with
    | none => none
    | some (m', e) =>
      match specEpoch m' rest with
      | none => none
      | some (m'', es) => some (m'', e :: es)

/-- Transcribed from the spec's description of `train`: walk the list of
epoch numbers; after each epoch invoke `onEpoch(epochNumber, meanLoss)`
with the mean of the collected losses and stop immediately on a truthy
return value. -/
def trainSpecAux (samples : List Sample) (cb : ℕ → ℚ → Bool) :
    List ℕ → MultiLayerPerceptron → Option MultiLayerPerceptron
  | [], m => some m
  | epochNumber :: rest, m =>
    match specEpoch m samples with
    | none => none
    | some (m', losses) =>
      let meanLoss := losses.sum / (samples.length : ℚ)
      if cb epochNumber meanLoss then some m'
      else trainSpecAux samples cb rest m'

/-- Transcribed from the spec's description of `train`: epochs are numbered
`1` to `epochs`; an omitted callback is a no-op that never stops
training. -/
def trainSpec (m : MultiLayerPerceptron) (samples : List Sample) (epochs : ℕ)
    (callback : Option (ℕ → ℚ → Bool)) : Option MultiLayerPerceptron :=
  trainSpecAux samples (callback.getD (fun _ _ => false)) (List.range' 1 epochs) m

/-- Running the full epoch count with no early exit: iterate `epochLoop`. -/
def noStopEpochs (samples : List Sample) : ℕ → MultiLayerPerceptron →
    Option MultiLayerPerceptron
  | 0, m => some m
  | r + 1, m =>
    match epochLoop m samples 0 with
    | none => none
    | some (m', _) => noStopEpochs samples r m'

/-- The source's accumulating epoch loop equals the spec-side loop that
collects the individual losses and sums them afterwards. -/
theorem epochLoop_eq_specEpoch (samples : List Sample) :
    ∀ (m : MultiLayerPerceptron) (total : ℚ),
    epochLoop m samples total =
      match specEpoch m samples with
      | none => none
      | some (m', losses) => some (m', total + losses.sum) := by
  induction samples with
  | nil => intro m total; rw [epochLoop, specEpoch]; simp
  | cons s rest ih =>
    intro m total
    rw [epochLoop, specEpoch]
    cases hr : runSample m s with
    | none => rfl
    | some p =>
      obtain ⟨m1, e⟩ := p
      show epochLoop m1 rest (total + e) =
        match (match specEpoch m1 rest with
          | none => none
          | some (m2, es) => some (m2, e :: es)) with
        | none => none
        | some (m', losses) => some (m', total + losses.sum)
      rw [ih m1 (total + e)]
      cases hs : specEpoch m1 rest with
      | none => rfl
      | some q =>
        obtain ⟨m2, es⟩ := q
        show some (m2, total + e + es.sum) = some (m2, total + (e :: es).sum)
        rw [List.sum_cons, add_assoc]

/-- The source's counting epoch loop equals the spec-side loop over the
list of epoch numbers `iteration, iteration + 1, …`. -/
theorem trainAux_eq_trainSpecAux (samples : List Sample) (cb : ℕ → ℚ → Bool) :
    ∀ (remaining iteration : ℕ) (m : MultiLayerPerceptron),
    trainAux samples cb iteration remaining m =
      trainSpecAux samples cb (List.range' iteration remaining) m := by
  intro remaining
  induction remaining with
  | zero => intro iteration m; rfl
  | succ r ih =>
    intro iteration m
    rw [trainAux, List.range'_succ, trainSpecAux,
      epochLoop_eq_specEpoch samples m 0]
    cases hs : specEpoch m samples with
    | none => rfl
    | some q =>
      obtain ⟨m', losses⟩ := q
      show (if cb iteration ((0 + losses.sum) / (samples.length : ℚ)) then some m'
        else trainAux samples cb (iteration + 1) r m') = _
      rw [zero_add, ih (iteration + 1) m']

/-- With a callback that never asks to stop, the epoch loop runs all the
remaining epochs. -/
theorem trainAux_false_eq_noStop (samples : List Sample) :
    ∀ (remaining iteration : ℕ) (m : MultiLayerPerceptron),
    trainAux samples (fun _ _ => false) iteration remaining m =
      noStopEpochs samples remaining m := by
  intro remaining
  induction remaining with
  | zero => intro iteration m; rfl
  | succ r ih =>
    intro iteration m
    rw [trainAux, noStopEpochs]
    cases he : epochLoop m samples 0 with
    | none => rfl
    | some q =>
      obtain ⟨m', total⟩ := q
      show (if false then some m' else trainAux samples (fun _ _ => false) (iteration + 1) r m')
        = noStopEpochs samples r m'
      rw [if_neg (by simp)]
      exact ih (iteration + 1) m'

/-- C4: `train(trainingSamples, epochs, onEpoch)` behaves exactly as the
spec describes it — epochs numbered `1` to `epochs`, each epoch running
predict, loss computation and backpropagation on every sample in original
order while accumulating loss, then invoking the callback with the epoch
number and the mean loss, stopping immediately on a truthy return value
(first conjunct, an equivalence with the loop transcribed from the spec's
words); with `epochs = 0` no sample is processed and the network is
returned unchanged (second conjunct); with the callback omitted, training
runs the full epoch count (third conjunct). -/
theorem train_spec_equiv :
    (∀ (m : MultiLayerPerceptron) (samples : List Sample) (epochs : ℕ)
      (callback : Option (ℕ → ℚ → Bool)),
      m.train samples epochs callback = trainSpec m samples epochs callback) ∧
    (∀ (m : MultiLayerPerceptron) (samples : List Sample)
      (callback : Option (ℕ → ℚ → Bool)),
      m.train samples 0 callback = some m) ∧
    (∀ (m : MultiLayerPerceptron) (samples : List Sample) (epochs : ℕ),
      m.train samples epochs none = noStopEpochs samples epochs m) := by
  refine ⟨?_, ?_, ?_⟩
  · intro m samples epochs callback
    rw [MultiLayerPerceptron.train, trainSpec,
      trainAux_eq_trainSpecAux samples (callback.getD (fun _ _ => false)) epochs 1 m]
  · intro m samples callback
    rfl
  · intro m samples epochs
    rw [MultiLayerPerceptron.train]
    exact trainAux_false_eq_noStop samples epochs 1 m

/-- The shape signature of a layer stack: neuron and input counts per
layer.  Training mutates weights, biases, activations and gradients, but
never these counts. -/
def layerSizes (ls : List NetworkLayer) : List (ℕ × ℕ) :=
  ls.map (fun l => (l.numNeurons, l.numInputs))

/-- Setting a position of a list to the value it already holds is the
identity (also when the index is out of range). -/
theorem set_getD_self {α : Type} (d : α) : ∀ (l : List α) (i : ℕ), l.set i (l.getD i d) = l
  | [], _ => rfl
  | _ :: _, 0 => rfl
  | a :: t, i + 1 => congrArg (a :: ·) (set_getD_self d t i)

/-- Reading a mapped list with the mapped default commutes with `map`. -/
theorem getD_map {α β : Type} (f : α → β) (d : α) (l : List α) (i : ℕ) :
    (l.map f).getD i (f d) = f (l.getD i d) := by
  rw [List.getD_eq_get?, List.getD_eq_get?, List.get?_map]
  cases l.get? i <;> rfl

/-- A successful `activate` preserves the layer's neuron and input counts
(and its weights, biases and gradients). -/
theorem activate_sizes (l : NetworkLayer) (inputs : List ℚ) (f : ℚ → ℚ)
    (out : List ℚ) (l' : NetworkLayer) (h : l.activate inputs f = some (out, l')) :
    l'.numNeurons = l.numNeurons ∧ l'.numInputs = l.numInputs := by
  rw [NetworkLayer.activate] at h
  by_cases hc : inputs.length ≠ l.numInputs
  · rw [if_pos hc] at h; cases h
  · rw [if_neg hc] at h
    simp only [Option.some.injEq, Prod.mk.injEq] at h
    obtain ⟨-, rfl⟩ := h
    exact ⟨rfl, rfl⟩

/-- A successful forward chain preserves the shape signature. -/
theorem predictAux_sizes (f : ℚ → ℚ) : ∀ (layers : List NetworkLayer) (inputs : List ℚ)
    (r : List ℚ × List NetworkLayer), predictAux f layers inputs = some r →
    layerSizes r.2 = layerSizes layers := by
  intro layers
  induction layers with
  | nil =>
    intro inputs r h
    rw [predictAux] at h
    injection h with h'
    subst h'
    rfl
  | cons l rest ih =>
    intro inputs r h
    rw [predictAux] at h
    cases ha : l.activate inputs f with
    | none => simp [ha] at h
    | some p =>
      obtain ⟨out, l'⟩ := p
      simp only [ha] at h
      cases hp : predictAux f rest out with
      | none => simp [hp] at h
      | some q =>
        obtain ⟨final, rest'⟩ := q
        simp only [hp, Option.some.injEq] at h
        subst h
        show layerSizes (l' :: rest') = layerSizes (l :: rest)
        rw [layerSizes, layerSizes, List.map_cons, List.map_cons]
        obtain ⟨h1, h2⟩ := activate_sizes l inputs f out l' ha
        rw [h1, h2]
        have := ih out (final, rest') hp
        rw [layerSizes, layerSizes] at this
        rw [this]

/-- One backward-loop iteration preserves the shape signature. -/
theorem backpropStep_sizes (lr : ℚ) (targets predictions : List ℚ) (L i : ℕ)
    (ls : List NetworkLayer) :
    layerSizes (backpropStep lr targets predictions L i ls) = layerSizes ls := by
  rw [backpropStep]
  by_cases hi : 0 < i
  · rw [if_pos hi, layerSizes, layerSizes, List.map_set]
    have hx : ((fun l : NetworkLayer => (l.numNeurons, l.numInputs)) (ls.getD i default)) =
        (ls.map (fun l : NetworkLayer => (l.numNeurons, l.numInputs))).getD i
          ((fun l : NetworkLayer => (l.numNeurons, l.numInputs)) default) :=
      (getD_map (fun l : NetworkLayer => (l.numNeurons, l.numInputs)) default ls i).symm
    show (ls.map (fun l : NetworkLayer => (l.numNeurons, l.numInputs))).set i
        ((fun l : NetworkLayer => (l.numNeurons, l.numInputs)) (ls.getD i default)) = _
    rw [hx, set_getD_self]
  · rw [if_neg hi]

/-- The backward sweep preserves the shape signature. -/
theorem backpropSweep_sizes (lr : ℚ) (targets predictions : List ℚ) (L : ℕ) :
    ∀ (i : ℕ) (ls : List NetworkLayer),
    layerSizes (backpropSweep lr targets predictions L i ls) = layerSizes ls := by
  intro i
  induction i with
  | zero => intro ls; rw [backpropSweep, backpropStep_sizes]
  | succ i ih => intro ls; rw [backpropSweep, ih, backpropStep_sizes]

/-- `#backpropagate` preserves the shape signature. -/
theorem backpropagate_sizes (lr : ℚ) (targets predictions : List ℚ)
    (ls : List NetworkLayer) :
    layerSizes (backpropagate lr targets predictions ls) = layerSizes ls := by
  rcases h : ls.length with _ | n
  · rw [backpropagate, h]
  · have hb : backpropagate lr targets predictions ls =
        backpropSweep lr targets predictions (n + 1) n ls := by
      rw [backpropagate, h]
    rw [hb, backpropSweep_sizes]

/-- A successful per-sample step (predict + backpropagate) preserves the
shape signature of the network. -/
theorem runSample_sizes (m : MultiLayerPerceptron) (s : Sample)
    (m' : MultiLayerPerceptron) (e : ℚ) (h : runSample m s = some (m', e)) :
    layerSizes m'.layers = layerSizes m.layers := by
  rw [runSample] at h
  cases hp : m.predict s.inputs with
  | none => simp [hp] at h
  | some p =>
    obtain ⟨predictions, m1⟩ := p
    simp only [hp, Option.some.injEq, Prod.mk.injEq] at h
    obtain ⟨rfl, -⟩ := h
    show layerSizes (backpropagate m.learningRate s.targets predictions m1.layers) = _
    rw [backpropagate_sizes]
    rw [MultiLayerPerceptron.predict] at hp
    cases ha : predictAux m.activationFunction m.layers s.inputs with
    | none => simp [ha] at hp
    | some q =>
      obtain ⟨outs, layers'⟩ := q
      simp only [ha, Option.some.injEq, Prod.mk.injEq] at hp
      obtain ⟨-, rfl⟩ := hp
      exact predictAux_sizes m.activationFunction m.layers s.inputs (outs, layers') ha

/-- Matching shape signatures give matching first-layer input counts. -/
theorem layerSizes_head_numInputs (ls ls' : List NetworkLayer)
    (h : layerSizes ls = layerSizes ls') :
    (ls.headD default).numInputs = (ls'.headD default).numInputs := by
  have h0 : (layerSizes ls).get? 0 = (layerSizes ls').get? 0 := by rw [h]
  rw [layerSizes, layerSizes, List.get?_map, List.get?_map] at h0
  cases hx : ls.get? 0 with
  | none =>
    cases hy : ls'.get? 0 with
    | none =>
      rw [List.headD_eq_head?_getD, List.headD_eq_head?_getD, ← List.get?_zero, ← List.get?_zero,
        hx, hy]
    | some b => rw [hx, hy] at h0; cases h0
  | some a =>
    cases hy : ls'.get? 0 with
    | none => rw [hx, hy] at h0; cases h0
    | some b =>
      rw [hx, hy] at h0
      simp only [Option.map_some', Option.some.injEq, Prod.mk.injEq] at h0
      rw [List.headD_eq_head?_getD, List.headD_eq_head?_getD, ← List.get?_zero, ← List.get?_zero,
        hx, hy]
      exact h0.2

/-- A sample on which `runSample` succeeds has an input vector matching the
first layer's input count (when there is a first layer): the first layer's
`activate` must have accepted it. -/
theorem runSample_some_inputs (m : MultiLayerPerceptron) (s : Sample)
    (p : MultiLayerPerceptron × ℚ) (h : runSample m s = some p) (hne : m.layers ≠ []) :
    s.inputs.length = (m.layers.headD default).numInputs := by
  rw [runSample] at h
  cases hp : m.predict s.inputs with
  | none => simp [hp] at h
  | some q =>
    rw [MultiLayerPerceptron.predict] at hp
    cases ha : predictAux m.activationFunction m.layers s.inputs with
    | none => simp [ha] at hp
    | some r =>
      cases hls : m.layers with
      | nil => exact absurd hls hne
      | cons l0 rest =>
        rw [hls, predictAux] at ha
        cases hact : l0.activate s.inputs m.activationFunction with
        | none => simp [hact] at ha
        | some u =>
          rw [NetworkLayer.activate] at hact
          by_cases hc : s.inputs.length ≠ l0.numInputs
          · rw [if_pos hc] at hact; cases hact
          · simpa using hc

/-- If some sample of the list has an input vector not matching the first
layer's input count, the epoch loop fails, whatever happens before that
sample is reached. -/
theorem epochLoop_abort (s : Sample) :
    ∀ (samples : List Sample) (m : MultiLayerPerceptron) (total : ℚ),
    s ∈ samples → m.layers ≠ [] →
    s.inputs.length ≠ (m.layers.headD default).numInputs →
    epochLoop m samples total = none := by
  intro samples
  induction samples with
  | nil => intro m total hmem; cases hmem
  | cons s0 rest ih =>
    intro m total hmem hne hbad
    rw [epochLoop]
    cases hr : runSample m s0 with
    | none => rfl
    | some p =>
      obtain ⟨m1, e⟩ := p
      show epochLoop m1 rest (total + e) = none
      rcases List.mem_cons.mp hmem with rfl | hmem'
      · exact absurd (runSample_some_inputs m s (m1, e) hr hne) hbad
      · have hsz := runSample_sizes m s0 m1 e hr
        have hlen : m1.layers.length = m.layers.length := by
          have := congrArg List.length hsz
          rwa [layerSizes, layerSizes, List.length_map, List.length_map] at this
        refine ih m1 (total + e) hmem' ?_ ?_
        · intro hnil
          rw [hnil] at hlen
          exact hne (List.length_eq_zero.mp hlen.symm)
        · rw [layerSizes_head_numInputs m1.layers m.layers hsz]
          exact hbad

/-- C6: a layer's forward call fails with the dimension-mismatch error if
and only if the input vector's length disagrees with the layer's configured
input count (first conjunct); the failure propagates — a single sample
whose inputs do not match the first layer's input count makes the whole
`train` call fail, with no retry and no skipping (second conjunct). -/
theorem dimension_mismatch_spec :
    (∀ (l : NetworkLayer) (inputs : List ℚ) (f : ℚ → ℚ),
      l.activate inputs f = none ↔ inputs.length ≠ l.numInputs) ∧
    (∀ (m : MultiLayerPerceptron) (samples : List Sample) (epochs : ℕ)
      (callback : Option (ℕ → ℚ → Bool)) (s : Sample),
      s ∈ samples → 1 ≤ epochs → m.layers ≠ [] →
      s.inputs.length ≠ (m.layers.headD default).numInputs →
      m.train samples epochs callback = none) := by
  constructor
  · intro l inputs f
    rw [NetworkLayer.activate]
    by_cases hc : inputs.length ≠ l.numInputs
    · rw [if_pos hc]; simp [hc]
    · rw [if_neg hc]; simp [hc]
  · intro m samples epochs callback s hmem hep hne hbad
    cases epochs with
    | zero => omega
    | succ r =>
      rw [MultiLayerPerceptron.train, trainAux,
        epochLoop_abort s samples m 0 hmem hne hbad]

/-- A concrete perceptron around `demoLayers` (identity activation,
constant error function, learning rate 1). -/
def demoMLP : MultiLayerPerceptron :=
  { layers := demoLayers, activationFunction := fun x => x,
    errorFunction := fun _ _ => 0, learningRate := 1 }

/-- Witness for C6: a two-entry input vector against a one-input layer
fails, and one such sample makes a whole training run fail. -/
theorem dimension_mismatch_spec_witness :
    (NetworkLayer.activate ⟨1, 1, [[1]], [0], [], []⟩ [1, 2] (fun x => x) = none ↔
      ([1, 2] : List ℚ).length ≠ (⟨1, 1, [[1]], [0], [], []⟩ : NetworkLayer).numInputs) ∧
    MultiLayerPerceptron.train demoMLP [⟨[1, 2], [0]⟩] 1 none = none :=
  ⟨dimension_mismatch_spec.1 ⟨1, 1, [[1]], [0], [], []⟩ [1, 2] (fun x => x),
   dimension_mismatch_spec.2 demoMLP [⟨[1, 2], [0]⟩] 1 none ⟨[1, 2], [0]⟩ (by simp)
     (by decide) (by decide) (by decide)⟩

/-- `inverseLerp(from, to, value)` of `utils.js` (parameters renamed: `from`
is a Lean keyword): `(value - from) / (to - from)`.  There is no guard on
`to = from`; over `ℚ` the division then yields `0`, whereas the JavaScript
original yields `NaN` — that behaviour is modelled faithfully by
`inverseLerpJ` below and is the subject of the NaN claim. -/
def inverseLerp (lo hi value : ℚ) : ℚ := (value - lo) / (hi - lo)

/-- `Math.min(...list)` for the nonempty column lists `minMaxPoints` builds
(on `[]` JavaScript would give `Infinity`; unreachable from the callers
modelled here). -/
def jsMin : List ℚ → ℚ
  | [] => 0
  | x :: xs => xs.foldl min x

/-- `Math.max(...list)`, as `jsMin`. -/
def jsMax : List ℚ → ℚ
  | [] => 0
  | x :: xs => xs.foldl max x

/-- `minMaxPoints(points)` of `utils.js`: per feature index `i` (walking
the first point's length), the pair pushed is
`[Math.min(...column i), Math.max(...column i)]` (the loop-local `min`/`max`
variables it also computes are dead values and do not reach the result). -/
def minMaxPoints (points : List (List ℚ)) : List (ℚ × ℚ) :=
  (List.range (points.headD []).length).map (fun i =>
    (jsMin (points.map (fun v => v.getD i 0)), jsMax (points.map (fun v => v.getD i 0))))

/-- `normalizePoints(data, minMax)` of `utils.js`:
`result[i][j] = inverseLerp(minMax[j][0], minMax[j][1], data[i][j])`, with
the min/max pairs computed from `data` itself when not supplied. -/
def normalizePoints (data : List (List ℚ)) (minMax : Option (List (ℚ × ℚ))) :
    List (List ℚ) :=
  let mm := minMax.getD (minMaxPoints data)
  data.map (fun row => (List.range row.length).map (fun j =>
    inverseLerp (mm.getD j (0, 0)).1 (mm.getD j (0, 0)).2 (row.getD j 0)))

/-- `euclideanDistance(a, b)` of `utils.js`: the square root of the sum of
squared per-dimension differences, iterating the indices of `a`.  The sum
is exact rational arithmetic; `Math.sqrt` is the exact real square root. -/
noncomputable def euclideanDistance (a b : List ℚ) : ℝ :=
  Real.sqrt (((List.range a.length).foldl
    (fun carry key => carry + (a.getD key 0 - b.getD key 0) ^ 2) 0 : ℚ) : ℝ)

/-- One entry of `nearestPoints`' result: `{index, point, distance}`. -/
structure NPoint where
  index : ℕ
  point : List ℚ
  distance : ℝ

/-- The ordering `nearestPoints` sorts by — the JavaScript comparator
`(a, b) => a.distance - b.distance`. -/
def distanceLE (a b : NPoint) : Prop := a.distance ≤ b.distance

noncomputable instance : DecidableRel distanceLE :=
  fun a b => Real.decidableLE a.distance b.distance

instance : IsTotal NPoint distanceLE := ⟨fun a b => le_total a.distance b.distance⟩

instance : IsTrans NPoint distanceLE := ⟨fun _ _ _ h1 h2 => le_trans h1 h2⟩

/-- `nearestPoints(point, points, k, distanceMetric)` of `utils.js`: map
each stored point to `{index, point, distance}` (defaulting the metric to
`euclideanDistance`), sort ascending by distance (`Array.prototype.sort` is
stable; insertion sort with `≤` is the matching stable sort), and `slice`
the first `k` entries. -/
noncomputable def nearestPoints (point : List ℚ) (points : List (List ℚ)) (k : ℕ)
    (distanceMetric : Option (List ℚ → List ℚ → ℝ)) : List NPoint :=
  (List.insertionSort distanceLE
    (points.mapIdx (fun index p =>
      { index := index, point := p,
        distance := (distanceMetric.getD euclideanDistance) point p }))).take k

/-- The `KNNClassifier` state: `k`, the optional distance metric (defaults
to `euclideanDistance` at use), the regression and normalization flags, and
the accumulated training data.  Labels are modelled as strings (the
classification case; the numeric reading a regression task gives a label is
abstracted as the `labelValue` argument of `predict`). -/
structure KNNClassifier where
  k : ℕ
  distanceMetric : Option (List ℚ → List ℚ → ℝ)
  regression : Bool
  trainingFeatures : List (List ℚ)
  trainingLabels : List String
  normalization : Bool

/-- A neighbor as produced by `#findNearestNeighbors`: an `nearestPoints`
entry spread together with the training label at its index (an index with
no stored label — impossible when features and labels are parallel — would
be JavaScript `undefined`, modelled as `""`). -/
structure NeighborL where
  index : ℕ
  point : List ℚ
  distance : ℝ
  label : String

/-- `KNNClassifier.#findNearestNeighbors(point)`. -/
noncomputable def KNNClassifier.findNearestNeighbors (st : KNNClassifier)
    (point : List ℚ) : List NeighborL :=
  (nearestPoints point st.trainingFeatures st.k st.distanceMetric).map
    (fun np => { index := np.index, point := np.point, distance := np.distance,
                 label := st.trainingLabels.getD np.index "" })

/-- One step of `#getVotes`' reduce:
`carry[label] = (carry[label] || 0) + 1` on a string-keyed object whose
iteration order is insertion order — an association list updated in place
or extended at the end. -/
def bump : List (String × ℕ) → String → List (String × ℕ)
  | [], label => [(label, 1)]
  | (a, c) :: rest, label =>
    if a = label then (a, c + 1) :: rest else (a, c) :: bump rest label

/-- `KNNClassifier.#getVotes(neighbors)`: tally the neighbor labels. -/
def getVotes (neighbors : List NeighborL) : List (String × ℕ) :=
  neighbors.foldl (fun carry neighbor => bump carry neighbor.label) []

/-- `KNNClassifier.#getAvgValues(neighbors)`: mean of the neighbors'
labels read as numbers (`labelValue` abstracts the numeric reading of the
untyped JavaScript label). -/
noncomputable def getAvgValues (labelValue : String → ℝ)
    (neighbors : List NeighborL) : ℝ :=
  (neighbors.foldl (fun sum neighbor => sum + labelValue neighbor.label) 0) /
    (neighbors.length : ℝ)

/-- The majority-vote selection loop of `predict`: walk the tally in
iteration order, replacing the running best only on a strictly greater
count (`votes[label] > maxVotes`), starting from `undefined` (modelled
as `none`) and `0`. -/
def voteLoop (votes : List (String × ℕ)) : Option String × ℕ :=
  votes.foldl (fun acc q => if acc.2 < q.2 then (some q.1, q.2) else acc) (none, 0)

/-- The result of `KNNClassifier.predict`: the average for a regression
task, `{predictedLabel, maxVotes}` for classification. -/
inductive PredictResult where
  | reg (value : ℝ)
  | cls (predictedLabel : Option String) (maxVotes : ℕ)

/-- `KNNClassifier.predict(feature)`: normalize the query point against
the concatenation `[feature, ...trainingFeatures]` when normalization is
enabled, find the `k` nearest neighbors, then average (regression) or
majority-vote (classification). -/
noncomputable def KNNClassifier.predict (st : KNNClassifier) (feature : List ℚ)
    (labelValue : String → ℝ) : PredictResult :=
  let point := if st.normalization
    then (normalizePoints (feature :: st.trainingFeatures) none).getD 0 []
    else feature
  let neighbors := st.findNearestNeighbors point
  if st.regression then PredictResult.reg (getAvgValues labelValue neighbors)
  else
    let votes := getVotes neighbors
    let result := voteLoop votes
    PredictResult.cls result.1 result.2

/-- `KNNClassifier.train(features, labels)`: normalize the incoming batch
on its own (when enabled) and append features and labels pairwise to the
stored training data. -/
def KNNClassifier.train (st : KNNClassifier) (features : List (List ℚ))
    (labels : List String) : KNNClassifier :=
  let _features := if st.normalization then normalizePoints features none else features
  { st with
    trainingFeatures := st.trainingFeatures ++ _features,
    trainingLabels := st.trainingLabels ++
      (List.range _features.length).map (fun i => labels.getD i "") }

/-- C9: for every stored point set and every `k` at least the number of
stored points (in particular every `k` greater than it), `nearestPoints`
returns all available points: a list of exactly one `{index, point,
distance}` entry per stored point (a permutation of the mapped stored
list), sorted ascending by distance — it never fails and never pads the
result to length `k`. -/
theorem nearestPoints_all (point : List ℚ) (points : List (List ℚ)) (k : ℕ)
    (distanceMetric : Option (List ℚ → List ℚ → ℝ)) (hk : points.length ≤ k) :
    (nearestPoints point points k distanceMetric).length = points.length ∧
    (nearestPoints point points k distanceMetric).Perm
      (points.mapIdx (fun index p =>
        { index := index, point := p,
          distance := (distanceMetric.getD euclideanDistance) point p })) ∧
    List.Sorted distanceLE (nearestPoints point points k distanceMetric) := by
  have hperm := List.perm_insertionSort distanceLE
    (points.mapIdx (fun index p =>
      ({ index := index, point := p,
         distance := (distanceMetric.getD euclideanDistance) point p } : NPoint)))
  have hlen : (List.insertionSort distanceLE
      (points.mapIdx (fun index p =>
        ({ index := index, point := p,
           distance := (distanceMetric.getD euclideanDistance) point p } : NPoint)))).length
      = points.length := by
    rw [hperm.length_eq, List.length_mapIdx]
  have htake : nearestPoints point points k distanceMetric =
      List.insertionSort distanceLE
        (points.mapIdx (fun index p =>
          ({ index := index, point := p,
             distance := (distanceMetric.getD euclideanDistance) point p } : NPoint))) := by
    rw [nearestPoints, List.take_of_length_le (by rw [hlen]; exact hk)]
  rw [htake]
  exact ⟨hlen, hperm, List.sorted_insertionSort distanceLE _⟩

/-- Witness for C9: two requested neighbors from a single stored point. -/
theorem nearestPoints_all_witness :
    (nearestPoints [1] [[2]] 2 none).length = ([[2]] : List (List ℚ)).length ∧
    (nearestPoints [1] [[2]] 2 none).Perm
      (([[2]] : List (List ℚ)).mapIdx (fun index p =>
        { index := index, point := p,
          distance := ((none : Option (List ℚ → List ℚ → ℝ)).getD euclideanDistance)
            [1] p })) ∧
    List.Sorted distanceLE (nearestPoints [1] [[2]] 2 none) :=
  nearestPoints_all [1] [[2]] 2 none (by decide)

/-- C8: classification `predict` with normalization disabled on a
classifier holding no training data does not fail: the neighbor search
yields the empty list and the call returns the absent label (`undefined`,
modelled as `none`) with zero votes. -/
theorem predict_empty_training (k : ℕ) (dm : Option (List ℚ → List ℚ → ℝ))
    (feature : List ℚ) (labelValue : String → ℝ) :
    KNNClassifier.predict
      { k := k, distanceMetric := dm, regression := false,
        trainingFeatures := [], trainingLabels := [], normalization := false }
      feature labelValue = PredictResult.cls none 0 := by
  rw [KNNClassifier.predict]
  simp [KNNClassifier.findNearestNeighbors, nearestPoints, getVotes, voteLoop]

/-- C7: with normalization enabled, `predict(feature)` recomputes min/max
over the concatenation `[feature] + storedTrainingFeatures`, normalizes
that combined set, and runs the rest of the prediction on the normalized
query point (the element at index 0) — stated as: such a call equals a
normalization-free `predict` on that jointly-normalized point (first
conjunct).  Train-time normalization uses a different basis: `train`
normalizes each incoming batch on its own (min/max from that batch alone,
`normalizePoints features` with no external min/max) before appending
(second conjunct). -/
theorem normalization_basis (labelValue : String → ℝ) :
    (∀ (st : KNNClassifier) (feature : List ℚ), st.normalization = true →
      st.predict feature labelValue =
        KNNClassifier.predict { st with normalization := false }
          ((normalizePoints (feature :: st.trainingFeatures) none).getD 0 [])
          labelValue) ∧
    (∀ (st : KNNClassifier) (features : List (List ℚ)) (labels : List String),
      st.normalization = true →
      (st.train features labels).trainingFeatures =
        st.trainingFeatures ++ normalizePoints features none ∧
      (st.train features labels).trainingLabels =
        st.trainingLabels ++ (List.range (normalizePoints features none).length).map
          (fun i => labels.getD i "")) := by
  constructor
  · intro st feature h
    rw [KNNClassifier.predict, KNNClassifier.predict]
    simp only [h, if_true]
    rfl
  · intro st features labels h
    rw [KNNClassifier.train]
    refine ⟨?_, ?_⟩ <;> simp [h]

/-- Witness for C7 on a concrete normalizing classifier. -/
theorem normalization_basis_witness :
    (KNNClassifier.predict
      { k := 1, distanceMetric := none, regression := false,
        trainingFeatures := [[1], [2]], trainingLabels := ["A", "B"],
        normalization := true } [3] (fun _ => 0) =
      KNNClassifier.predict
        { k := 1, distanceMetric := none, regression := false,
          trainingFeatures := [[1], [2]], trainingLabels := ["A", "B"],
          normalization := false }
        ((normalizePoints ([3] :: [[1], [2]]) none).getD 0 []) (fun _ => 0)) ∧
    ((KNNClassifier.train
      { k := 1, distanceMetric := none, regression := false,
        trainingFeatures := [[1], [2]], trainingLabels := ["A", "B"],
        normalization := true } [[4], [6]] ["C", "D"]).trainingFeatures =
      [[1], [2]] ++ normalizePoints [[4], [6]] none ∧
    (KNNClassifier.train
      { k := 1, distanceMetric := none, regression := false,
        trainingFeatures := [[1], [2]], trainingLabels := ["A", "B"],
        normalization := true } [[4], [6]] ["C", "D"]).trainingLabels =
      ["A", "B"] ++ (List.range (normalizePoints [[4], [6]] none).length).map
        (fun i => (["C", "D"] : List String).getD i "")) :=
  ⟨(normalization_basis (fun _ => 0)).1
      { k := 1, distanceMetric := none, regression := false,
        trainingFeatures := [[1], [2]], trainingLabels := ["A", "B"],
        normalization := true } [3] rfl,
   (normalization_basis (fun _ => 0)).2
      { k := 1, distanceMetric := none, regression := false,
        trainingFeatures := [[1], [2]], trainingLabels := ["A", "B"],
        normalization := true } [[4], [6]] ["C", "D"] rfl⟩

/-- A tally update never produces an empty tally. -/
theorem bump_ne_nil (carry : List (String × ℕ)) (label : String) :
    bump carry label ≠ [] := by
  cases carry with
  | nil => simp [bump]
  | cons q rest =>
    obtain ⟨a, c⟩ := q
    rw [bump]
    by_cases h : a = label
    · rw [if_pos h]; simp
    · rw [if_neg h]; simp

/-- A tally update keeps every count positive. -/
theorem bump_pos (label : String) : ∀ (carry : List (String × ℕ)),
    (∀ q ∈ carry, 0 < q.2) → ∀ q ∈ bump carry label, 0 < q.2 := by
  intro carry
  induction carry with
  | nil =>
    intro _ q hq
    rw [bump, List.mem_singleton] at hq
    subst hq
    exact Nat.one_pos
  | cons p rest ih =>
    obtain ⟨a, c⟩ := p
    intro hc q hq
    rw [bump] at hq
    by_cases h : a = label
    · rw [if_pos h] at hq
      rcases List.mem_cons.mp hq with rfl | hq'
      · have := hc (a, c) (List.mem_cons_self _ _)
        simp only at this ⊢
        omega
      · exact hc q (List.mem_cons_of_mem _ hq')
    · rw [if_neg h] at hq
      rcases List.mem_cons.mp hq with rfl | hq'
      · exact hc (a, c) (List.mem_cons_self _ _)
      · exact ih (fun r hr => hc r (List.mem_cons_of_mem _ hr)) q hq'

/-- Every count in a vote tally is positive. -/
theorem getVotes_pos (neighbors : List NeighborL) :
    ∀ q ∈ getVotes neighbors, 0 < q.2 := by
  rw [getVotes]
  have key : ∀ (ns : List NeighborL) (carry : List (String × ℕ)),
      (∀ q ∈ carry, 0 < q.2) →
      ∀ q ∈ ns.foldl (fun carry neighbor => bump carry neighbor.label) carry, 0 < q.2 := by
    intro ns
    induction ns with
    | nil => intro carry hc q hq; exact hc q hq
    | cons n rest ih =>
      intro carry hc q hq
      rw [List.foldl_cons] at hq
      exact ih (bump carry n.label) (bump_pos n.label carry hc) q hq
  exact key neighbors [] (by intro q hq; cases hq)

/-- The tally of a nonempty neighbor list is nonempty. -/
theorem getVotes_ne_nil (neighbors : List NeighborL) (h : neighbors ≠ []) :
    getVotes neighbors ≠ [] := by
  have key : ∀ (ns : List NeighborL) (carry : List (String × ℕ)), carry ≠ [] →
      ns.foldl (fun carry neighbor => bump carry neighbor.label) carry ≠ [] := by
    intro ns
    induction ns with
    | nil => intro carry hc; exact hc
    | cons n rest ih =>
      intro carry _
      rw [List.foldl_cons]
      exact ih (bump carry n.label) (bump_ne_nil carry n.label)
  cases neighbors with
  | nil => exact absurd rfl h
  | cons n rest =>
    rw [getVotes, List.foldl_cons]
    exact key rest (bump [] n.label) (bump_ne_nil [] n.label)

/-- The selection loop keeps its accumulator when no later count beats it. -/
theorem voteFold_keep : ∀ (votes : List (String × ℕ)) (acc : Option String × ℕ),
    (∀ q ∈ votes, q.2 ≤ acc.2) →
    votes.foldl (fun acc q => if acc.2 < q.2 then (some q.1, q.2) else acc) acc = acc := by
  intro votes
  induction votes with
  | nil => intro acc _; rfl
  | cons p rest ih =>
    intro acc hle
    rw [List.foldl_cons, if_neg (by
      have := hle p (List.mem_cons_self _ _)
      omega)]
    exact ih acc (fun q hq => hle q (List.mem_cons_of_mem _ hq))

/-- The selection loop's running maximum stays below a bound that bounds
the accumulator and every count strictly. -/
theorem voteFold_lt (v : ℕ) : ∀ (votes : List (String × ℕ)) (acc : Option String × ℕ),
    (∀ q ∈ votes, q.2 < v) → acc.2 < v →
    (votes.foldl (fun acc q => if acc.2 < q.2 then (some q.1, q.2) else acc) acc).2 < v := by
  intro votes
  induction votes with
  | nil => intro acc _ hacc; exact hacc
  | cons p rest ih =>
    intro acc hlt hacc
    rw [List.foldl_cons]
    by_cases h : acc.2 < p.2
    · rw [if_pos h]
      exact ih _ (fun q hq => hlt q (List.mem_cons_of_mem _ hq))
        (hlt p (List.mem_cons_self _ _))
    · rw [if_neg h]
      exact ih _ (fun q hq => hlt q (List.mem_cons_of_mem _ hq)) hacc

/-- The selection loop on a tally split at its first maximal entry returns
that entry: everything before it is strictly smaller, it beats the running
maximum there, and nothing after it is strictly bigger. -/
theorem voteLoop_split (pre post : List (String × ℕ)) (l : String) (v : ℕ)
    (hpre : ∀ q ∈ pre, q.2 < v) (hpost : ∀ q ∈ post, q.2 ≤ v) (hv : 0 < v) :
    voteLoop (pre ++ (l, v) :: post) = (some l, v) := by
  rw [voteLoop, List.foldl_append, List.foldl_cons]
  have hlt : (pre.foldl (fun acc q => if acc.2 < q.2 then (some q.1, q.2) else acc)
      ((none : Option String), 0)).2 < v :=
    voteFold_lt v pre (none, 0) hpre hv
  rw [if_pos hlt]
  exact voteFold_keep post (some l, v) hpost

/-- Every nonempty tally splits at its first maximal entry. -/
theorem exists_max_split : ∀ (votes : List (String × ℕ)), votes ≠ [] →
    ∃ (pre : List (String × ℕ)) (l : String) (v : ℕ) (post : List (String × ℕ)),
      votes = pre ++ (l, v) :: post ∧ (∀ q ∈ pre, q.2 < v) ∧ (∀ q ∈ post, q.2 ≤ v) := by
  intro votes
  induction votes with
  | nil => intro h; exact absurd rfl h
  | cons p rest ih =>
    intro _
    obtain ⟨a, c⟩ := p
    by_cases hrest : rest = []
    · subst hrest
      refine ⟨[], a, c, [], rfl, ?_, ?_⟩
      · intro q hq; cases hq
      · intro q hq; cases hq
    · obtain ⟨pre', l', v', post', heq, hpre', hpost'⟩ := ih hrest
      by_cases hcv : v' ≤ c
      · refine ⟨[], a, c, rest, rfl, ?_, ?_⟩
        · intro q hq; cases hq
        intro q hq
        rw [heq] at hq
        rcases List.mem_append.mp hq with hq' | hq'
        · exact le_trans (le_of_lt (hpre' q hq')) hcv
        · rcases List.mem_cons.mp hq' with rfl | hq''
          · exact hcv
          · exact le_trans (hpost' q hq'') hcv
      · refine ⟨(a, c) :: pre', l', v', post', ?_, ?_, hpost'⟩
        · rw [heq, List.cons_append]
        intro q hq
        rcases List.mem_cons.mp hq with rfl | hq'
        · omega
        · exact hpre' q hq'

/-- With at least one stored point and `k ≥ 1`, the neighbor search result
is nonempty. -/
theorem findNearestNeighbors_ne_nil (st : KNNClassifier) (point : List ℚ)
    (hne : st.trainingFeatures ≠ []) (hk : 1 ≤ st.k) :
    st.findNearestNeighbors point ≠ [] := by
  rw [KNNClassifier.findNearestNeighbors]
  intro h
  rw [List.map_eq_nil] at h
  have hlen := congrArg List.length h
  rw [nearestPoints, List.length_take, List.length_nil,
    (List.perm_insertionSort distanceLE _).length_eq, List.length_mapIdx] at hlen
  have hpos : 0 < st.trainingFeatures.length := List.length_pos.mpr hne
  omega

/-- Monotonicity of the source's Euclidean distance in the summed squares
(`Real.sqrt` is monotone). -/
theorem euclideanDistance_le (a b c : List ℚ)
    (h : ((List.range a.length).foldl
        (fun carry key => carry + (a.getD key 0 - b.getD key 0) ^ 2) 0 : ℚ) ≤
      (List.range a.length).foldl
        (fun carry key => carry + (a.getD key 0 - c.getD key 0) ^ 2) 0) :
    euclideanDistance a b ≤ euclideanDistance a c := by
  rw [euclideanDistance, euclideanDistance]
  exact Real.sqrt_le_sqrt (by exact_mod_cast h)

/-- The spec's concrete classification example: three stored points labeled
`A`, `A`, `B`, `k = 1`, defaults otherwise. -/
def irisExample : KNNClassifier :=
  { k := 1, distanceMetric := none, regression := false,
    trainingFeatures := [[5.1, 3.5, 1.4, 0.2], [4.9, 3.0, 1.4, 0.2], [7.0, 3.2, 4.7, 1.4]],
    trainingLabels := ["A", "A", "B"], normalization := false }

/-- C5: for every non-empty training set, a classification `predict` call
(with `k ≥ 1`) tallies label frequency among the `k` nearest neighbors and
returns the label with the highest count together with that count; on a
tie, the entry that comes first in the tally's insertion/iteration order
wins (everything before the returned entry in the tally is strictly
smaller, everything after it is no bigger).  In particular, on the training
set `A, A, B` of the spec's example with `k = 1`, predicting
`[5.0, 3.4, 1.4, 0.2]` returns label `"A"` with `maxVotes = 1`. -/
theorem predict_classification_votes (labelValue : String → ℝ) :
    (∀ (st : KNNClassifier) (feature : List ℚ),
      st.regression = false → st.trainingFeatures ≠ [] → 1 ≤ st.k →
      ∃ (pre post : List (String × ℕ)) (l : String) (v : ℕ),
        getVotes (st.findNearestNeighbors
          (if st.normalization
           then (normalizePoints (feature :: st.trainingFeatures) none).getD 0 []
           else feature)) = pre ++ (l, v) :: post ∧
        (∀ q ∈ pre, q.2 < v) ∧ (∀ q ∈ post, q.2 ≤ v) ∧
        st.predict feature labelValue = PredictResult.cls (some l) v) ∧
    irisExample.predict [5.0, 3.4, 1.4, 0.2] labelValue =
      PredictResult.cls (some "A") 1 := by
  constructor
  · intro st feature hreg hne hk
    have hnn := findNearestNeighbors_ne_nil st
      (if st.normalization
       then (normalizePoints (feature :: st.trainingFeatures) none).getD 0 []
       else feature) hne hk
    obtain ⟨pre, l, v, post, heq, hpre, hpost⟩ :=
      exists_max_split _ (getVotes_ne_nil _ hnn)
    have hv : 0 < v := getVotes_pos _ (l, v)
      (by rw [heq]; exact List.mem_append_right _ (List.mem_cons_self _ _))
    have hvl : voteLoop (getVotes (st.findNearestNeighbors
        (if st.normalization
         then (normalizePoints (feature :: st.trainingFeatures) none).getD 0 []
         else feature))) = (some l, v) := by
      rw [heq]
      exact voteLoop_split pre post l v hpre hpost hv
    refine ⟨pre, post, l, v, heq, hpre, hpost, ?_⟩
    rw [KNNClassifier.predict, hreg, if_neg (by simp)]
    simp only [hvl]
  · have h12 : distanceLE
        { index := 0, point := [5.1, 3.5, 1.4, 0.2],
          distance := euclideanDistance [5.0, 3.4, 1.4, 0.2] [5.1, 3.5, 1.4, 0.2] }
        { index := 1, point := [4.9, 3.0, 1.4, 0.2],
          distance := euclideanDistance [5.0, 3.4, 1.4, 0.2] [4.9, 3.0, 1.4, 0.2] } :=
      euclideanDistance_le _ _ _ (by
        rw [show List.range ([5.0, 3.4, 1.4, 0.2] : List ℚ).length = [0, 1, 2, 3] from rfl]
        norm_num [List.foldl_cons, List.foldl_nil, List.getD_cons_zero, List.getD_cons_succ])
    have h23 : distanceLE
        { index := 1, point := [4.9, 3.0, 1.4, 0.2],
          distance := euclideanDistance [5.0, 3.4, 1.4, 0.2] [4.9, 3.0, 1.4, 0.2] }
        { index := 2, point := [7.0, 3.2, 4.7, 1.4],
          distance := euclideanDistance [5.0, 3.4, 1.4, 0.2] [7.0, 3.2, 4.7, 1.4] } :=
      euclideanDistance_le _ _ _ (by
        rw [show List.range ([5.0, 3.4, 1.4, 0.2] : List ℚ).length = [0, 1, 2, 3] from rfl]
        norm_num [List.foldl_cons, List.foldl_nil, List.getD_cons_zero, List.getD_cons_succ])
    have hnn : irisExample.findNearestNeighbors [5.0, 3.4, 1.4, 0.2] =
        [{ index := 0, point := [5.1, 3.5, 1.4, 0.2],
           distance := euclideanDistance [5.0, 3.4, 1.4, 0.2] [5.1, 3.5, 1.4, 0.2],
           label := "A" }] := by
      rw [KNNClassifier.findNearestNeighbors, nearestPoints]
      rw [show (irisExample.trainingFeatures.mapIdx (fun index p =>
          ({ index := index, point := p,
             distance := (irisExample.distanceMetric.getD euclideanDistance)
               [5.0, 3.4, 1.4, 0.2] p } : NPoint))) =
        [{ index := 0, point := [5.1, 3.5, 1.4, 0.2],
           distance := euclideanDistance [5.0, 3.4, 1.4, 0.2] [5.1, 3.5, 1.4, 0.2] },
         { index := 1, point := [4.9, 3.0, 1.4, 0.2],
           distance := euclideanDistance [5.0, 3.4, 1.4, 0.2] [4.9, 3.0, 1.4, 0.2] },
         { index := 2, point := [7.0, 3.2, 4.7, 1.4],
           distance := euclideanDistance [5.0, 3.4, 1.4, 0.2] [7.0, 3.2, 4.7, 1.4] }]
        from rfl]
      simp only [List.insertionSort, List.orderedInsert_nil, List.orderedInsert,
        h12, h23, if_true]
      rfl
    have hbody : irisExample.predict [5.0, 3.4, 1.4, 0.2] labelValue =
        PredictResult.cls
          (voteLoop (getVotes (irisExample.findNearestNeighbors
            [5.0, 3.4, 1.4, 0.2]))).1
          (voteLoop (getVotes (irisExample.findNearestNeighbors
            [5.0, 3.4, 1.4, 0.2]))).2 := rfl
    rw [hbody, hnn]
    rfl

/-- Witness for C5: the claim's tally/selection property instantiated on
the concrete example classifier. -/
theorem predict_classification_votes_witness :
    ∃ (pre post : List (String × ℕ)) (l : String) (v : ℕ),
      getVotes (irisExample.findNearestNeighbors
        (if irisExample.normalization
         then (normalizePoints ([5.0, 3.4, 1.4, 0.2] :: irisExample.trainingFeatures)
           none).getD 0 []
         else [5.0, 3.4, 1.4, 0.2])) = pre ++ (l, v) :: post ∧
      (∀ q ∈ pre, q.2 < v) ∧ (∀ q ∈ post, q.2 ≤ v) ∧
      irisExample.predict [5.0, 3.4, 1.4, 0.2] (fun _ => 0) =
        PredictResult.cls (some l) v :=
  (predict_classification_votes (fun _ => 0)).1 irisExample [5.0, 3.4, 1.4, 0.2] rfl
    (by simp [irisExample]) (by simp [irisExample])

/-- An IEEE-754 style JavaScript number for the NaN analysis: a finite
value (kept exact as `ℚ`), `NaN`, or a signed infinity. -/
inductive JNum where
  | num (q : ℚ)
  | nan
  | inf
  | ninf
deriving DecidableEq

/-- JavaScript `+` on `JNum`: `NaN` absorbs, opposite infinities give
`NaN`. -/
def jadd : JNum → JNum → JNum
  | .num a, .num b => .num (a + b)
  | .nan, _ => .nan
  | _, .nan => .nan
  | .inf, .ninf => .nan
  | .ninf, .inf => .nan
  | .inf, _ => .inf
  | _, .inf => .inf
  | .ninf, _ => .ninf
  | _, .ninf => .ninf

/-- JavaScript `-` on `JNum`. -/
def jsub : JNum → JNum → JNum
  | .num a, .num b => .num (a - b)
  | .nan, _ => .nan
  | _, .nan => .nan
  | .inf, .inf => .nan
  | .ninf, .ninf => .nan
  | .inf, _ => .inf
  | .ninf, _ => .ninf
  | _, .inf => .ninf
  | _, .ninf => .inf

/-- JavaScript `*` on `JNum`: `NaN` absorbs, `0 * ±Infinity` is `NaN`. -/
def jmul : JNum → JNum → JNum
  | .num a, .num b => .num (a * b)
  | .nan, _ => .nan
  | _, .nan => .nan
  | .inf, .inf => .inf
  | .inf, .ninf => .ninf
  | .ninf, .inf => .ninf
  | .ninf, .ninf => .inf
  | .inf, .num b => if b = 0 then .nan else if 0 < b then .inf else .ninf
  | .num a, .inf => if a = 0 then .nan else if 0 < a then .inf else .ninf
  | .ninf, .num b => if b = 0 then .nan else if 0 < b then .ninf else .inf
  | .num a, .ninf => if a = 0 then .nan else if 0 < a then .ninf else .inf

/-- JavaScript division of two finite values: `0 / 0` is `NaN`, a nonzero
value over `0` is a signed infinity, otherwise the exact quotient. -/
def jdivQ (a b : ℚ) : JNum :=
  if b = 0 then (if a = 0 then JNum.nan else if 0 < a then JNum.inf else JNum.ninf)
  else JNum.num (a / b)

/-- `inverseLerp` under JavaScript number semantics: the unguarded
`(value - from) / (to - from)` of the source, with IEEE division. -/
def inverseLerpJ (lo hi value : ℚ) : JNum := jdivQ (value - lo) (hi - lo)

/-- `normalizePoints` (no external min/max) under JavaScript number
semantics: same computation as `normalizePoints`, with the division's NaN
behaviour kept. -/
def normalizePointsJ (data : List (List ℚ)) : List (List JNum) :=
  let mm := minMaxPoints data
  data.map (fun row => (List.range row.length).map (fun j =>
    inverseLerpJ (mm.getD j (0, 0)).1 (mm.getD j (0, 0)).2 (row.getD j 0)))

/-- `Math.sqrt` on `JNum`: `NaN` for `NaN`, negative inputs and
`-Infinity`; `Infinity` for `Infinity`; the finite branch is abstracted by
`s`. -/
def sqrtJ (s : ℚ → JNum) : JNum → JNum
  | .nan => JNum.nan
  | .ninf => JNum.nan
  | .inf => JNum.inf
  | .num q => if q < 0 then JNum.nan else s q

/-- `euclideanDistance` under JavaScript number semantics: the source's
reduce over the indices of `a` followed by `Math.sqrt`. -/
def euclideanDistanceJ (s : ℚ → JNum) (a b : List JNum) : JNum :=
  sqrtJ s ((List.range a.length).foldl
    (fun carry key => jadd carry
      (jmul (jsub (a.getD key JNum.nan) (b.getD key JNum.nan))
        (jsub (a.getD key JNum.nan) (b.getD key JNum.nan)))) (JNum.num 0))

/-- `NaN` absorbs on the right of `+`. -/
theorem jadd_nan_right (x : JNum) : jadd x JNum.nan = JNum.nan := by
  cases x <;> rfl

/-- `NaN` absorbs on the left of `+`. -/
theorem jadd_nan_left (x : JNum) : jadd JNum.nan x = JNum.nan := by
  cases x <;> rfl

/-- `NaN` absorbs on the left of `-`. -/
theorem jsub_nan_left (x : JNum) : jsub JNum.nan x = JNum.nan := by
  cases x <;> rfl

/-- `NaN` absorbs on the left of `*`. -/
theorem jmul_nan_left (x : JNum) : jmul JNum.nan x = JNum.nan := by
  cases x <;> rfl

/-- Once the accumulator of the distance reduce is `NaN`, it stays so. -/
theorem jadd_foldl_nan (t : ℕ → JNum) : ∀ (l : List ℕ),
    l.foldl (fun carry key => jadd carry (t key)) JNum.nan = JNum.nan := by
  intro l
  induction l with
  | nil => rfl
  | cons a rest ih => rw [List.foldl_cons, jadd_nan_left]; exact ih

/-- A constant nonempty list has that constant as its `Math.min`. -/
theorem jsMin_const (c : ℚ) : ∀ (l : List ℚ), l ≠ [] → (∀ x ∈ l, x = c) →
    jsMin l = c := by
  intro l hne hall
  cases l with
  | nil => exact absurd rfl hne
  | cons x xs =>
    rw [jsMin]
    have key : ∀ (ys : List ℚ) (acc : ℚ), acc = c → (∀ y ∈ ys, y = c) →
        ys.foldl min acc = c := by
      intro ys
      induction ys with
      | nil => intro acc h _; exact h
      | cons y ys ih =>
        intro acc hacc hall'
        rw [List.foldl_cons]
        refine ih _ ?_ (fun z hz => hall' z (List.mem_cons_of_mem _ hz))
        rw [hacc, hall' y (List.mem_cons_self _ _)]
        exact min_self c
    exact key xs x (hall x (List.mem_cons_self _ _))
      (fun y hy => hall y (List.mem_cons_of_mem _ hy))

/-- A constant nonempty list has that constant as its `Math.max`. -/
theorem jsMax_const (c : ℚ) : ∀ (l : List ℚ), l ≠ [] → (∀ x ∈ l, x = c) →
    jsMax l = c := by
  intro l hne hall
  cases l with
  | nil => exact absurd rfl hne
  | cons x xs =>
    rw [jsMax]
    have key : ∀ (ys : List ℚ) (acc : ℚ), acc = c → (∀ y ∈ ys, y = c) →
        ys.foldl max acc = c := by
      intro ys
      induction ys with
      | nil => intro acc h _; exact h
      | cons y ys ih =>
        intro acc hacc hall'
        rw [List.foldl_cons]
        refine ih _ ?_ (fun z hz => hall' z (List.mem_cons_of_mem _ hz))
        rw [hacc, hall' y (List.mem_cons_self _ _)]
        exact max_self c
    exact key xs x (hall x (List.mem_cons_self _ _))
      (fun y hy => hall y (List.mem_cons_of_mem _ hy))

/-- On a coordinate that is constant across all points, the computed
min/max pair degenerates to that constant twice. -/
theorem minMaxPoints_const (points : List (List ℚ)) (j : ℕ) (c : ℚ)
    (hne : points ≠ []) (hconst : ∀ p ∈ points, p.getD j 0 = c)
    (hj : j < (points.headD []).length) :
    (minMaxPoints points).getD j (0, 0) = (c, c) := by
  rw [minMaxPoints, List.getD_eq_get?, List.get?_map, List.get?_range hj]
  simp only [Option.map_some', Option.getD_some]
  have hcol : ∀ x ∈ points.map (fun v => v.getD j 0), x = c := by
    intro x hx
    obtain ⟨p, hp, rfl⟩ := List.mem_map.mp hx
    exact hconst p hp
  have hcolne : points.map (fun v => v.getD j 0) ≠ [] := by
    intro h; exact hne (List.map_eq_nil.mp h)
  rw [jsMin_const c _ hcolne hcol, jsMax_const c _ hcolne hcol]

/-- C10: normalization divides by `max - min` without a guard.  For every
non-empty point set in which coordinate `j` is the same value across all
points (in particular any single-point set), min and max coincide there and
`normalizePoints` computes `0 / 0`, i.e. `NaN`, in coordinate `j` of every
output point, instead of raising an error (first conjunct).  Such `NaN`
coordinates then silently poison the distance computation: the source's
Euclidean distance of any vector that is `NaN` at an in-range coordinate to
any other vector is `NaN` (second conjunct) — this applies in particular to
the jointly-normalized query point a normalizing predictor searches with. -/
theorem normalization_nan_unguarded :
    (∀ (points : List (List ℚ)) (j : ℕ) (c : ℚ), points ≠ [] →
      (∀ p ∈ points, p.getD j 0 = c) → (∀ p ∈ points, j < p.length) →
      ∀ i < points.length,
        ((normalizePointsJ points).getD i []).get? j = some JNum.nan) ∧
    (∀ (s : ℚ → JNum) (a b : List JNum) (j : ℕ), j < a.length →
      a.getD j JNum.nan = JNum.nan → euclideanDistanceJ s a b = JNum.nan) := by
  constructor
  · intro points j c hne hconst hdim i hi
    have hj0 : j < (points.headD []).length := by
      cases points with
      | nil => exact absurd rfl hne
      | cons p0 rest => exact hdim p0 (List.mem_cons_self _ _)
    have hmm := minMaxPoints_const points j c hne hconst hj0
    obtain ⟨p, hp⟩ : ∃ p, points.get? i = some p := by
      cases hx : points.get? i with
      | some p => exact ⟨p, rfl⟩
      | none => rw [List.get?_eq_none] at hx; omega
    have hpmem : p ∈ points := List.get?_mem hp
    rw [normalizePointsJ, List.getD_eq_get?, List.get?_map, hp]
    simp only [Option.map_some', Option.getD_some]
    rw [List.get?_map, List.get?_range (hdim p hpmem), Option.map_some', hmm,
      hconst p hpmem]
    simp [inverseLerpJ, jdivQ]
  · intro s a b j hj hnan
    rw [euclideanDistanceJ]
    have key : ∀ n : ℕ, j < n →
        (List.range n).foldl (fun carry key => jadd carry
          (jmul (jsub (a.getD key JNum.nan) (b.getD key JNum.nan))
            (jsub (a.getD key JNum.nan) (b.getD key JNum.nan)))) (JNum.num 0) =
        JNum.nan := by
      intro n
      induction n with
      | zero => intro h; omega
      | succ n ih =>
        intro h
        rw [List.range_succ, List.foldl_append, List.foldl_cons, List.foldl_nil]
        rcases Nat.lt_or_ge j n with hjn | hjn
        · rw [ih hjn, jadd_nan_left]
        · have hj' : j = n := by omega
          subst hj'
          rw [hnan, jsub_nan_left, jmul_nan_left, jadd_nan_right]
    rw [key a.length hj]
    rfl

/-- Witness for C10: a single stored two-coordinate point makes coordinate
0 degenerate; the normalized point is `NaN` there and its distance to any
vector is `NaN`. -/
theorem normalization_nan_unguarded_witness :
    ((normalizePointsJ [[3, 7]]).getD 0 []).get? 0 = some JNum.nan ∧
    euclideanDistanceJ (fun _ => JNum.num 0) [JNum.nan] [JNum.num 0] = JNum.nan :=
  ⟨normalization_nan_unguarded.1 [[3, 7]] 0 3 (by simp)
      (by intro p hp; rw [List.mem_singleton] at hp; subst hp; rfl)
      (by intro p hp; rw [List.mem_singleton] at hp; subst hp; simp)
      0 (by simp),
   normalization_nan_unguarded.2 (fun _ => JNum.num 0) [JNum.nan] [JNum.num 0] 0
      (by simp) rfl⟩
